import Mathlib

set_option maxRecDepth 4000

/-!
Verification development for the automaker feature-orchestration core.

Part I embeds `spawnJSONLProcess` (src/libs/platform/src/subprocess.ts):
the JSONL stdout parsing loop and the exit-code handling, as a pure
function from the observed line sequence, exit code and accumulated
stderr to the list of records the async generator yields.

Part II embeds `FeatureLoader` (src/app/electron/services/feature-loader.js):
`loadFeatures`, `updateFeatureStatus`, `updateFeatureWorktree` and
`selectNextFeature`, as pure functions over an explicit disk state
(the feature-list file and its backup).
-/

/-! ### Part I: JSON values and a model of `JSON.parse`

`JSON.parse` is a platform builtin (not repository code); it is modelled
here by an executable recursive-descent parser over the JSON grammar.
Numbers keep their source lexeme: the stream layer never inspects
numeric values, only parse success and record shape matter. -/

inductive Json
  | null
  | bool (b : Bool)
  | num (lexeme : String)
  | str (s : String)
  | arr (elems : List Json)
  | obj (members : List (String × Json))

def isJsonWs (c : Char) : Bool :=
  c = ' ' || c = '\t' || c = '\n' || c = '\r'

def skipWs : List Char → List Char
  | [] => []
  | c :: cs => if isJsonWs c then skipWs cs else c :: cs

def isHexDig (c : Char) : Bool :=
  c.isDigit || ('a' ≤ c && c ≤ 'f') || ('A' ≤ c && c ≤ 'F')

def hexVal (c : Char) : Nat :=
  if c.isDigit then c.toNat - '0'.toNat
  else if 'a' ≤ c && c ≤ 'f' then c.toNat - 'a'.toNat + 10
  else if 'A' ≤ c && c ≤ 'F' then c.toNat - 'A'.toNat + 10
  else 0

/-- Body of a JSON string literal, after the opening quote. -/
def parseStringBody : Nat → List Char → List Char → Option (String × List Char)
  | 0, _, _ => none
  | fuel + 1, acc, cs =>
    match cs with
    | [] => none
    | '"' :: rest => some (String.mk acc.reverse, rest)
    | '\\' :: e :: rest =>
      match e with
      | '"' => parseStringBody fuel ('"' :: acc) rest
      | '\\' => parseStringBody fuel ('\\' :: acc) rest
      | '/' => parseStringBody fuel ('/' :: acc) rest
      | 'b' => parseStringBody fuel ('\x08' :: acc) rest
      | 'f' => parseStringBody fuel ('\x0c' :: acc) rest
      | 'n' => parseStringBody fuel ('\n' :: acc) rest
      | 'r' => parseStringBody fuel ('\x0d' :: acc) rest
      | 't' => parseStringBody fuel ('\t' :: acc) rest
      | 'u' =>
        match rest with
        | h1 :: h2 :: h3 :: h4 :: rest2 =>
          if isHexDig h1 && isHexDig h2 && isHexDig h3 && isHexDig h4 then
            parseStringBody fuel
              (Char.ofNat (4096 * hexVal h1 + 256 * hexVal h2 + 16 * hexVal h3 + hexVal h4)
                :: acc) rest2
          else none
        | _ => none
      | _ => none
    | c :: rest => if c.toNat ≥ 0x20 then parseStringBody fuel (c :: acc) rest else none

def takeDigits : List Char → List Char × List Char
  | [] => ([], [])
  | c :: cs =>
    if c.isDigit then
      let (d, r) := takeDigits cs
      (c :: d, r)
    else ([], c :: cs)

/-- Integer part of a JSON number (after an optional minus sign):
a single `0`, or a nonzero digit followed by digits. -/
def parseIntPart : List Char → Option (List Char × List Char)
  | [] => none
  | c :: cs =>
    if c = '0' then some ([c], cs)
    else if c.isDigit then
      let (d, r) := takeDigits cs
      some (c :: d, r)
    else none

def parseFracPart : List Char → Option (List Char × List Char)
  | '.' :: cs =>
    match takeDigits cs with
    | ([], _) => none
    | (d, r) => some ('.' :: d, r)
  | cs => some ([], cs)

def parseExpPart : List Char → Option (List Char × List Char)
  | [] => some ([], [])
  | c :: cs =>
    if c = 'e' || c = 'E' then
      match cs with
      | s :: cs2 =>
        if s = '+' || s = '-' then
          match takeDigits cs2 with
          | ([], _) => none
          | (d, r) => some (c :: s :: d, r)
        else
          match takeDigits cs with
          | ([], _) => none
          | (d, r) => some (c :: d, r)
      | [] => none
    else some ([], c :: cs)

/-- A JSON number starting at `cs` (with `sign` already consumed),
returning the full lexeme. -/
def parseNumber (sign : List Char) (cs : List Char) : Option (List Char × List Char) :=
  match parseIntPart cs with
  | none => none
  | some (ip, cs2) =>
    match parseFracPart cs2 with
    | none => none
    | some (fp, cs3) =>
      match parseExpPart cs3 with
      | none => none
      | some (ep, cs4) => some (sign ++ ip ++ fp ++ ep, cs4)

inductive PMode
  | value
  | elems
  | members
  deriving DecidableEq, Repr

inductive PRes
  | v (x : Json)
  | es (xs : List Json)
  | ms (xs : List (String × Json))

/-- Recursive-descent core of the JSON grammar, structurally recursive on
fuel so that concrete inputs evaluate by kernel reduction. -/
def parseCore : Nat → PMode → List Char → Option (PRes × List Char)
  | 0, _, _ => none
  | fuel + 1, PMode.value, cs =>
    match skipWs cs with
    | 'n' :: 'u' :: 'l' :: 'l' :: rest => some (.v .null, rest)
    | 't' :: 'r' :: 'u' :: 'e' :: rest => some (.v (.bool true), rest)
    | 'f' :: 'a' :: 'l' :: 's' :: 'e' :: rest => some (.v (.bool false), rest)
    | '"' :: rest =>
      match parseStringBody (rest.length + 1) [] rest with
      | some (s, rest2) => some (.v (.str s), rest2)
      | none => none
    | '[' :: rest =>
      (match skipWs rest with
       | ']' :: rest2 => some (.v (.arr []), rest2)
       | cs2 =>
         match parseCore fuel PMode.elems cs2 with
         | some (.es xs, rest2) => some (.v (.arr xs), rest2)
         | _ => none)
    | '{' :: rest =>
      (match skipWs rest with
       | '}' :: rest2 => some (.v (.obj []), rest2)
       | cs2 =>
         match parseCore fuel PMode.members cs2 with
         | some (.ms xs, rest2) => some (.v (.obj xs), rest2)
         | _ => none)
    | '-' :: rest =>
      (match parseNumber ['-'] rest with
       | some (lex, rest2) => some (.v (.num (String.mk lex)), rest2)
       | none => none)
    | c :: rest =>
      if c.isDigit then
        match parseNumber [] (c :: rest) with
        | some (lex, rest2) => some (.v (.num (String.mk lex)), rest2)
        | none => none
      else none
    | [] => none
  | fuel + 1, PMode.elems, cs =>
    match parseCore fuel PMode.value cs with
    | some (.v x, rest) =>
      (match skipWs rest with
       | ',' :: rest2 =>
         (match parseCore fuel PMode.elems rest2 with
          | some (.es xs, r) => some (.es (x :: xs), r)
          | _ => none)
       | ']' :: rest2 => some (.es [x], rest2)
       | _ => none)
    | _ => none
  | fuel + 1, PMode.members, cs =>
    match skipWs cs with
    | '"' :: rest =>
      (match parseStringBody (rest.length + 1) [] rest with
       | some (k, rest2) =>
         (match skipWs rest2 with
          | ':' :: rest3 =>
            (match parseCore fuel PMode.value rest3 with
             | some (.v x, rest4) =>
               (match skipWs rest4 with
                | ',' :: rest5 =>
                  (match parseCore fuel PMode.members rest5 with
                   | some (.ms xs, r) => some (.ms ((k, x) :: xs), r)
                   | _ => none)
                | '}' :: rest5 => some (.ms [(k, x)], rest5)
                | _ => none)
             | _ => none)
          | _ => none)
       | none => none)
    | _ => none

/-- Model of `JSON.parse(line)`: the whole line must parse as one JSON
value, with only whitespace around it. -/
def parseJson (line : String) : Option Json :=
  match parseCore (line.length + 1) PMode.value line.data with
  | some (.v x, rest) => if skipWs rest = [] then some x else none
  | _ => none

/-! ### The JSONL stream of `spawnJSONLProcess`

The generator's observable behaviour is a function of the stdout line
sequence (as split by the readline interface), the process exit code
(`null` when the process errored instead of exiting) and the
accumulated stderr text.  Timeout and abort handling kill the process
but emit no records, so they only influence which line sequence and
exit code are observed. -/

/-- The synthetic record `{ type: "error", error: msg }` yielded by the
generator for parse failures and failed exits. -/
def syntheticError (msg : String) : Json :=
  Json.obj [("type", Json.str "error"), ("error", Json.str msg)]

/-- `!line.trim()` in the source: true iff every character of the line is
whitespace (JS `trim` also strips some exotic Unicode spaces, which no
claim exercises). -/
def isBlankLine (line : String) : Bool :=
  line.data.all isJsonWs

/-- Records yielded for one stdout line: a blank line is skipped, a
parsed line is yielded as-is, an unparseable line yields a synthetic
parse-error record and processing continues. -/
def processLine (line : String) : List Json :=
  if isBlankLine line then []
  else
    match parseJson line with
    | some v => [v]
    | none => [syntheticError ("Failed to parse output: " ++ line)]

/-- All records yielded by one run of `spawnJSONLProcess`: the per-line
records in arrival order, then the exit handling — a non-zero non-null
exit code yields one synthetic error record carrying stderr (or a
generic exit-code message when stderr is empty, per
`stderrOutput || ...`). -/
def streamRecords (lines : List String) (exitCode : Option Int) (stderr : String) :
    List Json :=
  lines.flatMap processLine ++
    match exitCode with
    | some c =>
      if c ≠ 0 then
        [syntheticError (if stderr ≠ "" then stderr else "Process exited with code " ++ toString c)]
      else []
    | none => []

/-! ### Part II: the `FeatureLoader` store

A feature record carries exactly the canonical field set the save
projection enumerates (`toSave` in the source).  `worktreePath` and
`branchName` need a three-state value because `updateFeatureWorktree`
can store an explicit `null` for `branchName` (which `JSON.stringify`
keeps), while `undefined` fields are omitted. -/

inductive JField
  | absent
  | nullv
  | str (s : String)
  deriving DecidableEq, Repr

structure Feature where
  id : Option String
  category : Option String
  description : Option String
  steps : Option (List String)
  status : Option String
  skipTests : Option Bool
  images : Option (List String)
  imagePaths : Option (List String)
  startedAt : Option String
  summary : Option String
  model : Option String
  thinkingLevel : Option String
  error : Option String
  worktreePath : JField
  branchName : JField
  deriving DecidableEq, Repr

/-- JS truthiness of an optional string argument or field
(`undefined` and `""` are falsy). -/
def truthyOpt : Option String → Bool
  | none => false
  | some s => s != ""

/-- The feature-list file (and likewise the backup file) as the loader
observes it: unreadable (`fs.readFile` throws), readable but not
parseable as an array of records (`JSON.parse` throws, or yields a
non-array), or an array of feature records. -/
inductive FileContent
  | missing
  | invalid
  | features (fs : List Feature)
  deriving DecidableEq, Repr

structure DiskState where
  featuresFile : FileContent
  backupFile : FileContent
  deriving DecidableEq, Repr

/-- `f.id || (String.raw)feature-(index)-(Date.now())` from `loadFeatures`. -/
def ensureId (now : Nat) (i : Nat) (f : Feature) : Feature :=
  if truthyOpt f.id then f
  else { f with id := some ("feature-" ++ toString i ++ "-" ++ toString now) }

def ensureIds (now : Nat) : Nat → List Feature → List Feature
  | _, [] => []
  | i, f :: fs => ensureId now i f :: ensureIds now (i + 1) fs

/-- `loadFeatures`: read and parse the feature-list file, give every
record a truthy id, and return `[]` on any read or parse failure.
`now` stands for `Date.now()` at the moment of the call. -/
def loadFeatures (file : FileContent) (now : Nat) : List Feature :=
  match file with
  | .features fs => ensureIds now 0 fs
  | _ => []

/-- `loadFeatures` as a disk operation: it performs no writes, so the
disk state is returned unchanged. -/
def loadFeaturesOp (st : DiskState) (now : Nat) : DiskState × List Feature :=
  (st, loadFeatures st.featuresFile now)

/-- `selectNextFeature`: the first feature whose status is neither
`verified` nor `waiting_approval`. -/
def selectNextFeature (features : List Feature) : Option Feature :=
  features.find? (fun f => f.status != some "verified" && f.status != some "waiting_approval")

/-- The backup file after the unconditional backup step of
`updateFeatureStatus`: a readable feature-list file is copied verbatim
over the backup; when the read throws, the failure is logged and the
old backup survives. -/
def backupAfterCopy (st : DiskState) : FileContent :=
  match st.featuresFile with
  | .missing => st.backupFile
  | c => c

/-- The in-memory working set of `updateFeatureStatus` after the
corruption-recovery check: when the reload yielded zero records and the
backup (as it stands after the backup step) parses to a non-empty
array, the backup's records are pushed in; otherwise the reload result
stands. -/
def workingSet (st : DiskState) (now : Nat) : List Feature :=
  let features := loadFeatures st.featuresFile now
  if features.isEmpty then
    match backupAfterCopy st with
    | .features bfs => if bfs.isEmpty then features else bfs
    | _ => features
  else features

/-- The in-place mutation `updateFeatureStatus` applies to the located
record: set the status; set the summary only when the argument is
truthy; set the error when truthy, else delete any previous error. -/
def applyPatch (status : String) (summary error : Option String) (f : Feature) : Feature :=
  let f1 := { f with status := some status }
  let f2 := if truthyOpt summary then { f1 with summary := summary } else f1
  if truthyOpt error then { f2 with error := error } else { f2 with error := none }

/-- Replace the first list element satisfying `p` by its image under `g`
(JS `Array.prototype.find` returns the first match, and the source
mutates that object in place). -/
def patchFirst {α : Type} (p : α → Bool) (g : α → α) : List α → List α
  | [] => []
  | f :: fs => if p f then g f :: fs else f :: patchFirst p g fs

/-- The save projection (`toSave` in the source): rebuilds the record
from the canonical always-present fields plus every optional field that
is defined.  On this record type that reconstruction is exhaustive. -/
def projectFeature (f : Feature) : Feature :=
  { id := f.id, category := f.category, description := f.description,
    steps := f.steps, status := f.status, skipTests := f.skipTests,
    images := f.images, imagePaths := f.imagePaths, startedAt := f.startedAt,
    summary := f.summary, model := f.model, thinkingLevel := f.thinkingLevel,
    error := f.error, worktreePath := f.worktreePath, branchName := f.branchName }

/-- How a call to `updateFeatureStatus` / `updateFeatureWorktree` ends:
a completed write, a silent no-op return (empty list or id not found),
or the thrown `CRITICAL: Attempted to save empty feature list` error. -/
inductive UpdateResult
  | ok
  | emptyAbort
  | notFound
  | fatalEmpty
  deriving DecidableEq, Repr

/-- `updateFeatureStatus(featureId, status, projectPath, summary, error)`
over the disk state: backup step, reload, recovery check, locate,
patch, projection, empty-save guard, write. -/
def updateFeatureStatus (featureId status : String) (summary error : Option String)
    (st : DiskState) (now : Nat) : DiskState × UpdateResult :=
  let backup := backupAfterCopy st
  let features := workingSet st now
  match features.find? (fun f => f.id == some featureId) with
  | none => (⟨st.featuresFile, backup⟩, .notFound)
  | some _ =>
    let patched := patchFirst (fun f => f.id == some featureId)
      (applyPatch status summary error) features
    let toSave := patched.map projectFeature
    if toSave.isEmpty then (⟨st.featuresFile, backup⟩, .fatalEmpty)
    else (⟨.features toSave, backup⟩, .ok)

/-- The worktree mutation of `updateFeatureWorktree`: a truthy
`worktreePath` sets both fields (an explicit `null` branch name is
stored as `null`, which the projection keeps); a falsy one deletes
both. -/
def setWorktreeFields (worktreePath branchName : Option String) (f : Feature) : Feature :=
  if truthyOpt worktreePath then
    { f with worktreePath := JField.str (worktreePath.getD ""),
             branchName := match branchName with
                           | some t => JField.str t
                           | none => JField.nullv }
  else { f with worktreePath := JField.absent, branchName := JField.absent }

/-- `updateFeatureWorktree(featureId, projectPath, worktreePath, branchName)`:
no backup step; silent return on an empty list or a missing id; same
projection and write otherwise. -/
def updateFeatureWorktree (featureId : String) (worktreePath branchName : Option String)
    (st : DiskState) (now : Nat) : DiskState × UpdateResult :=
  let features := loadFeatures st.featuresFile now
  if features.isEmpty then (st, .emptyAbort)
  else
    match features.find? (fun f => f.id == some featureId) with
    | none => (st, .notFound)
    | some _ =>
      let patched := patchFirst (fun f => f.id == some featureId)
        (setWorktreeFields worktreePath branchName) features
      let toSave := patched.map projectFeature
      (⟨.features toSave, st.backupFile⟩, .ok)

/-- A minimal concrete feature record: an id, a status, nothing else. -/
def mkFeature (i : String) (st : String) : Feature :=
  ⟨some i, none, none, none, some st, none, none, none, none, none, none, none, none,
   JField.absent, JField.absent⟩

/-- A concrete record with worktree metadata present. -/
def fWithWorktree : Feature :=
  { mkFeature "f1" "backlog" with
    worktreePath := JField.str "/old"
    branchName := JField.str "old" }

/-- A concrete record with a stale summary and a stale error. -/
def fErrSum : Feature :=
  { mkFeature "f1" "backlog" with
    summary := some "old-summary"
    error := some "old-error" }

/-! ### Helper lemmas -/

theorem truthyOpt_some_iff (s : String) : truthyOpt (some s) = true ↔ s ≠ "" := by
  simp [truthyOpt]

theorem projectFeature_eq (f : Feature) : projectFeature f = f := rfl

theorem map_projectFeature (l : List Feature) : l.map projectFeature = l := by
  induction l with
  | nil => rfl
  | cons f fs ih => simp [projectFeature_eq, ih]

theorem patchFirst_length {α : Type} (p : α → Bool) (g : α → α) (l : List α) :
    (patchFirst p g l).length = l.length := by
  induction l with
  | nil => rfl
  | cons a l ih =>
    by_cases h : p a = true
    · simp [patchFirst, h]
    · simp [patchFirst, h, ih]

theorem patchFirst_mem {α : Type} {p : α → Bool} {g : α → α} {l : List α} {x : α}
    (hx : x ∈ patchFirst p g l) : x ∈ l ∨ ∃ y ∈ l, x = g y := by
  induction l with
  | nil => simp [patchFirst] at hx
  | cons a l ih =>
    by_cases h : p a = true
    · simp [patchFirst, h] at hx
      rcases hx with hx | hx
      · exact Or.inr ⟨a, by simp, hx⟩
      · exact Or.inl (by simp [hx])
    · simp [patchFirst, h] at hx
      rcases hx with hx | hx
      · exact Or.inl (by simp [hx])
      · rcases ih hx with h1 | ⟨y, hy, hxy⟩
        · exact Or.inl (by simp [h1])
        · exact Or.inr ⟨y, by simp [hy], hxy⟩

theorem patchFirst_append_cons {α : Type} (p : α → Bool) (g : α → α)
    (l1 l2 : List α) (a : α) (h1 : ∀ x ∈ l1, p x = false) (ha : p a = true) :
    patchFirst p g (l1 ++ a :: l2) = l1 ++ g a :: l2 := by
  induction l1 with
  | nil => simp [patchFirst, ha]
  | cons b l1 ih =>
    have hb : p b = false := h1 b (by simp)
    simp [patchFirst, hb]
    exact ih fun x hx => h1 x (by simp [hx])

theorem find?_eq_some_split {α : Type} {p : α → Bool} {l : List α} {g : α}
    (h : l.find? p = some g) :
    ∃ l1 l2, l = l1 ++ g :: l2 ∧ p g = true ∧ ∀ x ∈ l1, p x = false := by
  induction l with
  | nil => simp at h
  | cons a l ih =>
    by_cases ha : p a = true
    · rw [List.find?_cons_of_pos _ ha] at h
      obtain rfl : a = g := Option.some.inj h
      exact ⟨[], l, rfl, ha, by simp⟩
    · rw [List.find?_cons_of_neg _ (by simpa using ha)] at h
      rcases ih h with ⟨l1, l2, rfl, hg, hl1⟩
      refine ⟨a :: l1, l2, rfl, hg, ?_⟩
      intro x hx
      rcases List.mem_cons.mp hx with rfl | hx
      · simpa using ha
      · exact hl1 x hx

theorem find?_append_cons {α : Type} (p : α → Bool) (l1 l2 : List α) (a : α)
    (h1 : ∀ x ∈ l1, p x = false) (ha : p a = true) :
    (l1 ++ a :: l2).find? p = some a := by
  induction l1 with
  | nil => simp [List.find?_cons_of_pos _ ha]
  | cons b l1 ih =>
    have hb : p b = false := h1 b (by simp)
    rw [List.cons_append, List.find?_cons_of_neg _ (by simp [hb])]
    exact ih fun x hx => h1 x (by simp [hx])

theorem synthId_ne_empty (a b : String) : ("feature-" ++ a ++ "-" ++ b) ≠ "" := by
  intro h
  have hd := congrArg String.data h
  simp [String.data_append] at hd

theorem ensureId_truthy (now i : Nat) (f : Feature) :
    truthyOpt (ensureId now i f).id = true := by
  unfold ensureId
  by_cases h : truthyOpt f.id = true
  · rw [if_pos h]; exact h
  · rw [if_neg h]
    have hne := synthId_ne_empty (toString i) (toString now)
    simp [truthyOpt, hne]

theorem ensureId_of_truthy {f : Feature} (h : truthyOpt f.id = true) (now i : Nat) :
    ensureId now i f = f := by
  simp [ensureId, h]

theorem ensureIds_truthy (now k : Nat) (fs : List Feature) :
    ∀ f ∈ ensureIds now k fs, truthyOpt f.id = true := by
  induction fs generalizing k with
  | nil => simp [ensureIds]
  | cons a fs ih =>
    intro f hf
    rcases List.mem_cons.mp hf with rfl | hf
    · exact ensureId_truthy now k a
    · exact ih (k + 1) f hf

theorem ensureIds_of_truthy (now : Nat) {fs : List Feature}
    (h : ∀ f ∈ fs, truthyOpt f.id = true) (k : Nat) : ensureIds now k fs = fs := by
  induction fs generalizing k with
  | nil => rfl
  | cons a fs ih =>
    have ha := h a (by simp)
    simp [ensureIds, ensureId_of_truthy ha, ih fun f hf => h f (by simp [hf])]

theorem ensureIds_get? (now : Nat) (fs : List Feature) (k i : Nat) :
    (ensureIds now k fs)[i]? = fs[i]?.map (ensureId now (k + i)) := by
  induction fs generalizing k i with
  | nil => simp [ensureIds]
  | cons a fs ih =>
    cases i with
    | zero => simp [ensureIds]
    | succ j =>
      simp only [ensureIds, List.getElem?_cons_succ]
      rw [ih (k + 1) j]
      have hk : k + 1 + j = k + (j + 1) := by omega
      rw [hk]

theorem ensureIds_length (now k : Nat) (fs : List Feature) :
    (ensureIds now k fs).length = fs.length := by
  induction fs generalizing k with
  | nil => rfl
  | cons a fs ih => simp [ensureIds, ih]

theorem loadFeatures_truthy (file : FileContent) (now : Nat) :
    ∀ f ∈ loadFeatures file now, truthyOpt f.id = true := by
  cases file with
  | features fs => exact ensureIds_truthy now 0 fs
  | missing => simp [loadFeatures]
  | invalid => simp [loadFeatures]

theorem loadFeatures_of_truthy {fs : List Feature}
    (h : ∀ f ∈ fs, truthyOpt f.id = true) (now : Nat) :
    loadFeatures (FileContent.features fs) now = fs :=
  ensureIds_of_truthy now h 0

theorem workingSet_of_ne_nil {st : DiskState} {now : Nat}
    (h : loadFeatures st.featuresFile now ≠ []) :
    workingSet st now = loadFeatures st.featuresFile now := by
  have hE : (loadFeatures st.featuresFile now).isEmpty = false := by
    simp [List.isEmpty_iff, h]
  unfold workingSet
  simp only [hE, Bool.false_eq_true, if_false]

theorem workingSet_restore {st : DiskState} {now : Nat} {bfs : List Feature}
    (h : loadFeatures st.featuresFile now = [])
    (hb : backupAfterCopy st = FileContent.features bfs) (hne : bfs ≠ []) :
    workingSet st now = bfs := by
  unfold workingSet
  simp [h, hb, List.isEmpty_iff, hne]

theorem load_length_le_workingSet (st : DiskState) (now : Nat) :
    (loadFeatures st.featuresFile now).length ≤ (workingSet st now).length := by
  unfold workingSet
  by_cases h : loadFeatures st.featuresFile now = []
  · simp [h]
  · simp [List.isEmpty_iff, h]

theorem applyPatch_id (s : String) (sum err : Option String) (f : Feature) :
    (applyPatch s sum err f).id = f.id := by
  unfold applyPatch
  by_cases h1 : truthyOpt sum = true <;> by_cases h2 : truthyOpt err = true <;> simp [h1, h2]

theorem patchFirst_map_id {g : Feature → Feature} (hg : ∀ f, (g f).id = f.id)
    (p : Feature → Bool) (l : List Feature) :
    (patchFirst p g l).map Feature.id = l.map Feature.id := by
  induction l with
  | nil => rfl
  | cons a l ih =>
    by_cases h : p a = true
    · simp [patchFirst, h, hg]
    · simp [patchFirst, h, ih]

theorem patchFirst_ne_nil {α : Type} (p : α → Bool) (g : α → α) {l : List α}
    (h : l ≠ []) : patchFirst p g l ≠ [] := by
  intro h0
  apply h
  have hlen := patchFirst_length p g l
  rw [h0] at hlen
  exact List.length_eq_zero.mp hlen.symm

theorem updateFS_of_find_none {fid s : String} {sum err : Option String}
    {st : DiskState} {now : Nat}
    (h : (workingSet st now).find? (fun f => f.id == some fid) = none) :
    updateFeatureStatus fid s sum err st now
      = (⟨st.featuresFile, backupAfterCopy st⟩, UpdateResult.notFound) := by
  unfold updateFeatureStatus
  simp only [h]

theorem updateFS_of_find_some {fid s : String} {sum err : Option String}
    {st : DiskState} {now : Nat} {g : Feature}
    (h : (workingSet st now).find? (fun f => f.id == some fid) = some g) :
    updateFeatureStatus fid s sum err st now
      = (⟨FileContent.features
            (patchFirst (fun f => f.id == some fid) (applyPatch s sum err) (workingSet st now)),
          backupAfterCopy st⟩, UpdateResult.ok) := by
  have hne : workingSet st now ≠ [] := by
    intro hnil
    rw [hnil] at h
    simp at h
  have hpne := patchFirst_ne_nil (fun f => f.id == some fid) (applyPatch s sum err) hne
  have hpe : (patchFirst (fun f => f.id == some fid) (applyPatch s sum err)
      (workingSet st now)).isEmpty = false := by
    simp [List.isEmpty_iff, hpne]
  unfold updateFeatureStatus
  simp only [h, map_projectFeature, hpe, Bool.false_eq_true, if_false]

/-! ### Claim theorems -/

/-- C1: for every backlog and every call to `updateFeatureStatus`, the
feature-list file is written only when the serialized collection
contains at least one record; on every non-writing outcome (silent
no-op or the fatal empty-save abort) the original feature-list file is
left untouched. -/
theorem C1_no_empty_write :
    ∀ (fid s : String) (sum err : Option String) (st : DiskState) (now : Nat),
      ((updateFeatureStatus fid s sum err st now).2 = UpdateResult.ok →
        ∃ fs, (updateFeatureStatus fid s sum err st now).1.featuresFile
            = FileContent.features fs ∧ fs ≠ []) ∧
      ((updateFeatureStatus fid s sum err st now).2 ≠ UpdateResult.ok →
        (updateFeatureStatus fid s sum err st now).1.featuresFile = st.featuresFile) := by
  intro fid s sum err st now
  cases h : (workingSet st now).find? (fun f => f.id == some fid) with
  | none =>
    rw [updateFS_of_find_none h]
    exact ⟨fun hok => by simp at hok, fun _ => rfl⟩
  | some g =>
    rw [updateFS_of_find_some h]
    constructor
    · intro _
      refine ⟨_, rfl, ?_⟩
      refine patchFirst_ne_nil _ _ ?_
      intro hnil
      rw [hnil] at h
      simp at h
    · intro hne
      exact absurd rfl hne

/-- Witness for C1 at concrete inputs: a successful update writes a
non-empty collection, and a failed lookup leaves the file untouched. -/
theorem C1_no_empty_write_witness :
    (∃ fs, (updateFeatureStatus "f1" "verified" none none
        ⟨FileContent.features [mkFeature "f1" "backlog"], FileContent.missing⟩ 0).1.featuresFile
        = FileContent.features fs ∧ fs ≠ []) ∧
    (updateFeatureStatus "zz" "verified" none none
        ⟨FileContent.features [mkFeature "f1" "backlog"], FileContent.missing⟩ 0).1.featuresFile
      = FileContent.features [mkFeature "f1" "backlog"] :=
  ⟨(C1_no_empty_write "f1" "verified" none none
      ⟨FileContent.features [mkFeature "f1" "backlog"], FileContent.missing⟩ 0).1 (by decide),
   (C1_no_empty_write "zz" "verified" none none
      ⟨FileContent.features [mkFeature "f1" "backlog"], FileContent.missing⟩ 0).2 (by decide)⟩

/-- C9: when the id matches no record of the (possibly backup-restored)
working set, `updateFeatureStatus` returns silently: the result is the
plain `notFound` return (no thrown error) and the feature-list file is
exactly the one the call started with. -/
theorem C9_not_found_is_noop :
    ∀ (fid s : String) (sum err : Option String) (st : DiskState) (now : Nat),
      (workingSet st now).find? (fun f => f.id == some fid) = none →
      updateFeatureStatus fid s sum err st now
        = (⟨st.featuresFile, backupAfterCopy st⟩, UpdateResult.notFound) :=
  fun _ _ _ _ _ _ h => updateFS_of_find_none h

/-- Witness for C9: an unknown id on a one-record backlog. -/
theorem C9_not_found_is_noop_witness :
    updateFeatureStatus "zz" "verified" none none
        ⟨FileContent.features [mkFeature "f1" "backlog"], FileContent.missing⟩ 0
      = (⟨FileContent.features [mkFeature "f1" "backlog"],
          FileContent.features [mkFeature "f1" "backlog"]⟩, UpdateResult.notFound) :=
  C9_not_found_is_noop "zz" "verified" none none
    ⟨FileContent.features [mkFeature "f1" "backlog"], FileContent.missing⟩ 0 (by decide)

/-- C3: a call to `updateFeatureStatus` that writes the feature-list
file writes at least as many records as the collection loaded at the
start of the call held, and every pre-call record's id is still present
afterward. -/
theorem C3_cardinality_nondecreasing :
    ∀ (fid s : String) (sum err : Option String) (st : DiskState) (now : Nat)
      (fs : List Feature),
      (updateFeatureStatus fid s sum err st now).2 = UpdateResult.ok →
      (updateFeatureStatus fid s sum err st now).1.featuresFile = FileContent.features fs →
      (loadFeatures st.featuresFile now).length ≤ fs.length ∧
        ∀ f ∈ loadFeatures st.featuresFile now, ∃ g ∈ fs, g.id = f.id := by
  intro fid s sum err st now fs hok hfile
  cases h : (workingSet st now).find? (fun f => f.id == some fid) with
  | none =>
    rw [updateFS_of_find_none h] at hok
    simp at hok
  | some g0 =>
    rw [updateFS_of_find_some h] at hfile
    have hfs : fs = patchFirst (fun f => f.id == some fid) (applyPatch s sum err)
        (workingSet st now) := (FileContent.features.inj hfile).symm
    constructor
    · calc (loadFeatures st.featuresFile now).length
          ≤ (workingSet st now).length := load_length_le_workingSet st now
        _ = fs.length := by rw [hfs, patchFirst_length]
    · intro f hf
      have hws : f ∈ workingSet st now := by
        by_cases hnil : loadFeatures st.featuresFile now = []
        · rw [hnil] at hf
          simp at hf
        · rw [workingSet_of_ne_nil hnil]
          exact hf
      have hmap : fs.map Feature.id = (workingSet st now).map Feature.id := by
        rw [hfs]
        exact patchFirst_map_id (applyPatch_id s sum err) _ _
      have hmem : f.id ∈ fs.map Feature.id := by
        rw [hmap]
        exact List.mem_map_of_mem _ hws
      rcases List.mem_map.mp hmem with ⟨g, hg, hgid⟩
      exact ⟨g, hg, hgid⟩

/-- Witness for C3: a two-record backlog, updating the first record. -/
theorem C3_cardinality_nondecreasing_witness :
    (loadFeatures (FileContent.features [mkFeature "f1" "backlog", mkFeature "f2" "backlog"]) 0).length
        ≤ [mkFeature "f1" "verified", mkFeature "f2" "backlog"].length ∧
      ∀ f ∈ loadFeatures
          (FileContent.features [mkFeature "f1" "backlog", mkFeature "f2" "backlog"]) 0,
        ∃ g ∈ [mkFeature "f1" "verified", mkFeature "f2" "backlog"], g.id = f.id :=
  C3_cardinality_nondecreasing "f1" "verified" none none
    ⟨FileContent.features [mkFeature "f1" "backlog", mkFeature "f2" "backlog"],
     FileContent.missing⟩ 0
    [mkFeature "f1" "verified", mkFeature "f2" "backlog"] (by decide) (by decide)

/-- C4: `selectNextFeature` returns the first item in list order whose
status is neither `verified` nor `waiting_approval`; an all-excluded
list yields none; on the documented four-status example it returns the
index-2 item; a status-`error` item is eligible. -/
theorem C4_selectNext_first_eligible :
    (∀ (fs : List Feature) (g : Feature), selectNextFeature fs = some g →
      ∃ l1 l2, fs = l1 ++ g :: l2 ∧
        (g.status ≠ some "verified" ∧ g.status ≠ some "waiting_approval") ∧
        ∀ x ∈ l1, x.status = some "verified" ∨ x.status = some "waiting_approval") ∧
    (∀ fs : List Feature,
      (∀ f ∈ fs, f.status = some "verified" ∨ f.status = some "waiting_approval") →
      selectNextFeature fs = none) ∧
    selectNextFeature [mkFeature "a" "verified", mkFeature "b" "waiting_approval",
        mkFeature "c" "backlog", mkFeature "d" "error"]
      = some (mkFeature "c" "backlog") ∧
    (mkFeature "d" "error").status ≠ some "verified" ∧
    (mkFeature "d" "error").status ≠ some "waiting_approval" := by
  refine ⟨?_, ?_, by decide, by decide, by decide⟩
  · intro fs g h
    rcases find?_eq_some_split h with ⟨l1, l2, rfl, hg, hl1⟩
    refine ⟨l1, l2, rfl, ?_, ?_⟩
    · constructor
      · intro hv
        simp [hv] at hg
      · intro hw
        simp [hw] at hg
    · intro x hx
      have := hl1 x hx
      by_cases hv : x.status = some "verified"
      · exact Or.inl hv
      · refine Or.inr ?_
        by_cases hw : x.status = some "waiting_approval"
        · exact hw
        · simp [hv, hw] at this
  · intro fs h
    rw [selectNextFeature, List.find?_eq_none]
    intro x hx
    rcases h x hx with hv | hw
    · simp [hv]
    · simp [hw]

/-- Witness for C4: the split characterization applied to the four-status
example and the all-excluded case applied to a verified-only list. -/
theorem C4_selectNext_first_eligible_witness :
    (∃ l1 l2, [mkFeature "a" "verified", mkFeature "b" "waiting_approval",
        mkFeature "c" "backlog", mkFeature "d" "error"]
        = l1 ++ mkFeature "c" "backlog" :: l2 ∧
      ((mkFeature "c" "backlog").status ≠ some "verified" ∧
        (mkFeature "c" "backlog").status ≠ some "waiting_approval") ∧
      ∀ x ∈ l1, x.status = some "verified" ∨ x.status = some "waiting_approval") ∧
    selectNextFeature [mkFeature "a" "verified"] = none :=
  ⟨C4_selectNext_first_eligible.1 _ _ (by decide),
   C4_selectNext_first_eligible.2.1 [mkFeature "a" "verified"] (by decide)⟩

/-- C10: every feature returned by `loadFeatures` has a truthy id; a
record whose persisted id is absent or empty comes back with the id
synthesized from its index and the load time; `loadFeatures` performs
no write; and two loads at different times can return different ids for
such a record. -/
theorem C10_load_synthesizes_ids :
    (∀ (file : FileContent) (now : Nat),
      ∀ f ∈ loadFeatures file now, truthyOpt f.id = true) ∧
    (∀ (fs : List Feature) (now i : Nat),
      (loadFeatures (FileContent.features fs) now)[i]? = fs[i]?.map (ensureId now i)) ∧
    (∀ (now i : Nat) (f : Feature), truthyOpt f.id = false →
      ensureId now i f
        = { f with id := some ("feature-" ++ toString i ++ "-" ++ toString now) }) ∧
    (∀ (st : DiskState) (now : Nat), (loadFeaturesOp st now).1 = st) ∧
    (∃ (file : FileContent) (t1 t2 : Nat), t1 ≠ t2 ∧
      (loadFeatures file t1).map Feature.id ≠ (loadFeatures file t2).map Feature.id) := by
  refine ⟨fun file now => loadFeatures_truthy file now, ?_, ?_, fun _ _ => rfl, ?_⟩
  · intro fs now i
    have := ensureIds_get? now fs 0 i
    simpa [loadFeatures] using this
  · intro now i f h
    simp [ensureId, h]
  · refine ⟨FileContent.features [{ mkFeature "x" "backlog" with id := none }], 0, 1,
      by decide, by decide⟩

/-- Witness for C10: a persisted record with no id, loaded at time 7,
carries the synthesized id `feature-0-7` (which is truthy). -/
theorem C10_load_synthesizes_ids_witness :
    truthyOpt ({ mkFeature "x" "backlog" with id := some "feature-0-7" } : Feature).id
        = true ∧
      ensureId 7 0 ({ mkFeature "x" "backlog" with id := none } : Feature)
        = { mkFeature "x" "backlog" with id := some "feature-0-7" } :=
  ⟨C10_load_synthesizes_ids.1 (FileContent.features [{ mkFeature "x" "backlog" with id := none }]) 7
      _ (by decide),
   C10_load_synthesizes_ids.2.2.1 7 0 ({ mkFeature "x" "backlog" with id := none } : Feature)
      (by decide)⟩

/-- C2 counterexample: the claim's own scenario fails. The persisted
file holds an empty array and the backup holds one valid record with
the requested id, yet the call does not proceed over the backup's
records: the unconditional backup step first copies the empty array
over the backup, the restore check then sees an empty backup, and the
update ends as a silent not-found no-op with the backup clobbered. -/
theorem C2_counterexample :
    updateFeatureStatus "f1" "verified" none none
        ⟨FileContent.features [], FileContent.features [mkFeature "f1" "backlog"]⟩ 0
      = (⟨FileContent.features [], FileContent.features []⟩, UpdateResult.notFound) := by
  decide

/-- C2 (amended): the restore happens when, after the unconditional
backup-copy step, the reload yields zero records and the backup parses
to a non-empty array — in particular when the persisted file is
unreadable, in which case the old backup survives the copy step and the
update proceeds over the backup's records. -/
theorem C2_restore_semantics :
    (∀ (st : DiskState) (now : Nat) (bfs : List Feature),
      loadFeatures st.featuresFile now = [] →
      backupAfterCopy st = FileContent.features bfs → bfs ≠ [] →
      workingSet st now = bfs) ∧
    (∀ (fid s : String) (sum err : Option String) (bfs : List Feature) (now : Nat)
        (g : Feature),
      bfs.find? (fun f => f.id == some fid) = some g →
      updateFeatureStatus fid s sum err ⟨FileContent.missing, FileContent.features bfs⟩ now
        = (⟨FileContent.features
              (patchFirst (fun f => f.id == some fid) (applyPatch s sum err) bfs),
            FileContent.features bfs⟩, UpdateResult.ok)) := by
  constructor
  · intro st now bfs h hb hne
    exact workingSet_restore h hb hne
  · intro fid s sum err bfs now g hfind
    have hne : bfs ≠ [] := by
      intro h0
      rw [h0] at hfind
      simp at hfind
    have hws : workingSet ⟨FileContent.missing, FileContent.features bfs⟩ now = bfs :=
      @workingSet_restore ⟨FileContent.missing, FileContent.features bfs⟩ now bfs rfl rfl hne
    have hfind2 : (workingSet ⟨FileContent.missing, FileContent.features bfs⟩ now).find?
        (fun f => f.id == some fid) = some g := by
      rw [hws]
      exact hfind
    have hres := @updateFS_of_find_some fid s sum err
      ⟨FileContent.missing, FileContent.features bfs⟩ now g hfind2
    rw [hws] at hres
    exact hres

/-- Witness for C2: with the persisted file missing and a one-record
backup, the update restores and patches the backup's record. -/
theorem C2_restore_semantics_witness :
    updateFeatureStatus "f1" "verified" none none
        ⟨FileContent.missing, FileContent.features [mkFeature "f1" "backlog"]⟩ 0
      = (⟨FileContent.features [mkFeature "f1" "verified"],
          FileContent.features [mkFeature "f1" "backlog"]⟩, UpdateResult.ok) :=
  C2_restore_semantics.2 "f1" "verified" none none [mkFeature "f1" "backlog"] 0
    (mkFeature "f1" "backlog") (by decide)

/-- C5 counterexample: a null exit code with no records emitted and
non-empty stderr yields no synthetic record at all, not the one
terminal error record the claim demands. -/
theorem C5_counterexample :
    streamRecords [] none "boom" = [] ∧
      ([] : List Json) ≠ [syntheticError "boom"] :=
  ⟨rfl, by simp⟩

/-- C5 (amended): a non-zero, non-null exit code with no records
emitted yields exactly one synthetic terminal error record carrying
stderr (or the generic exit-code message when stderr is empty); a zero
or null exit code yields no synthetic record. -/
theorem C5_exit_code_records :
    (∀ (lines : List String) (stderr : String) (c : Int),
      lines.flatMap processLine = [] → c ≠ 0 →
      streamRecords lines (some c) stderr
        = [syntheticError (if stderr ≠ "" then stderr
            else "Process exited with code " ++ toString c)]) ∧
    (∀ (lines : List String) (stderr : String),
      lines.flatMap processLine = [] →
      streamRecords lines (some 0) stderr = [] ∧ streamRecords lines none stderr = []) := by
  constructor
  · intro lines stderr c h hc
    unfold streamRecords
    rw [h]
    simp [hc]
  · intro lines stderr h
    constructor
    · unfold streamRecords
      rw [h]
      simp
    · unfold streamRecords
      rw [h]
      simp

/-- Witness for C5: two blank lines, exit code 2, empty stderr. -/
theorem C5_exit_code_records_witness :
    streamRecords ["", "   "] (some 2) ""
      = [syntheticError "Process exited with code 2"] := by
  have h := C5_exit_code_records.1 ["", "   "] "" 2 rfl (by decide)
  simpa using h

/-- C6: blank stdout lines yield no record; an unparseable line yields
one synthetic parse-error record carrying the raw line and the stream
continues with the remaining lines; a parsed line is yielded as-is; and
the documented three-line example yields exactly three records in
arrival order. -/
theorem C6_line_handling :
    (∀ line : String, isBlankLine line = true → processLine line = []) ∧
    (∀ line : String, isBlankLine line = false → parseJson line = none →
      processLine line = [syntheticError ("Failed to parse output: " ++ line)]) ∧
    (∀ (line : String) (v : Json), isBlankLine line = false → parseJson line = some v →
      processLine line = [v]) ∧
    (∀ (l1 l2 : List String) (ec : Option Int) (stderr : String),
      streamRecords (l1 ++ l2) ec stderr
        = l1.flatMap processLine ++ streamRecords l2 ec stderr) ∧
    streamRecords ["\x7b\"a\":1\x7d", "NOT JSON", "\x7b\"b\":2\x7d"] (some 0) ""
      = [Json.obj [("a", Json.num "1")],
         syntheticError "Failed to parse output: NOT JSON",
         Json.obj [("b", Json.num "2")]] := by
  refine ⟨?_, ?_, ?_, ?_, rfl⟩
  · intro line h
    simp [processLine, h]
  · intro line h hp
    simp [processLine, h, hp]
  · intro line v h hp
    simp [processLine, h, hp]
  · intro l1 l2 ec stderr
    unfold streamRecords
    rw [List.flatMap_append, List.append_assoc]

/-- Witness for C6: the malformed line of the documented example. -/
theorem C6_line_handling_witness :
    processLine "NOT JSON" = [syntheticError ("Failed to parse output: " ++ "NOT JSON")] :=
  C6_line_handling.2.1 "NOT JSON" rfl rfl

theorem updateFW_of_find_some {fid : String} {wp bn : Option String}
    {st : DiskState} {now : Nat} {g : Feature}
    (h : (loadFeatures st.featuresFile now).find? (fun f => f.id == some fid) = some g) :
    updateFeatureWorktree fid wp bn st now
      = (⟨FileContent.features
            (patchFirst (fun f => f.id == some fid) (setWorktreeFields wp bn)
              (loadFeatures st.featuresFile now)), st.backupFile⟩, UpdateResult.ok) := by
  have hne : loadFeatures st.featuresFile now ≠ [] := by
    intro h0
    rw [h0] at h
    simp at h
  have hE : (loadFeatures st.featuresFile now).isEmpty = false := by
    simp [List.isEmpty_iff, hne]
  unfold updateFeatureWorktree
  simp only [hE, Bool.false_eq_true, if_false, h, map_projectFeature]

theorem updateFW_of_find_none {fid : String} {wp bn : Option String}
    {st : DiskState} {now : Nat}
    (h : (loadFeatures st.featuresFile now).find? (fun f => f.id == some fid) = none) :
    updateFeatureWorktree fid wp bn st now = (st, UpdateResult.emptyAbort) ∨
      updateFeatureWorktree fid wp bn st now = (st, UpdateResult.notFound) := by
  unfold updateFeatureWorktree
  by_cases hE : (loadFeatures st.featuresFile now).isEmpty = true
  · left
    simp only [hE, if_true]
  · right
    simp only [Bool.not_eq_true] at hE
    simp only [hE, Bool.false_eq_true, if_false, h]

/-- C7 counterexample: `updateFeatureWorktree` with the non-null (but
empty) worktree path `""` does not set the two fields — it clears both,
even discarding previously present values, because the source tests JS
truthiness rather than non-nullness. -/
theorem C7_counterexample :
    (updateFeatureWorktree "f1" (some "") (some "b")
        ⟨FileContent.features [fWithWorktree], FileContent.missing⟩ 0).1.featuresFile
      = FileContent.features [mkFeature "f1" "backlog"] ∧
    (mkFeature "f1" "backlog").worktreePath = JField.absent ∧
    (mkFeature "f1" "backlog").branchName = JField.absent := by
  refine ⟨by decide, rfl, rfl⟩

/-- C7 (amended): a truthy (non-null and non-empty) worktree path sets
both fields together (a null branch name is stored as an explicit null,
still a present key); a null or empty worktree path clears both
together; so the patched record never has one of the two fields present
without the other, and clearing after a prior set leaves both absent. -/
theorem C7_worktree_fields_together :
    (∀ (wp bn : Option String) (f : Feature),
      ((setWorktreeFields wp bn f).worktreePath = JField.absent ∧
        (setWorktreeFields wp bn f).branchName = JField.absent) ∨
      ((setWorktreeFields wp bn f).worktreePath ≠ JField.absent ∧
        (setWorktreeFields wp bn f).branchName ≠ JField.absent)) ∧
    (∀ (s : String) (bn : Option String) (f : Feature), s ≠ "" →
      (setWorktreeFields (some s) bn f).worktreePath = JField.str s ∧
        (setWorktreeFields (some s) bn f).branchName ≠ JField.absent) ∧
    (∀ (bn : Option String) (f : Feature),
      setWorktreeFields none bn f
        = { f with worktreePath := JField.absent, branchName := JField.absent } ∧
      setWorktreeFields (some "") bn f
        = { f with worktreePath := JField.absent, branchName := JField.absent }) ∧
    (∀ (fid : String) (wp bn : Option String) (st : DiskState) (now : Nat)
        (fs : List Feature),
      (updateFeatureWorktree fid wp bn st now).1.featuresFile = FileContent.features fs →
      (updateFeatureWorktree fid wp bn st now).2 = UpdateResult.ok →
      ∀ x ∈ fs, x ∈ loadFeatures st.featuresFile now ∨
        ∃ y ∈ loadFeatures st.featuresFile now, x = setWorktreeFields wp bn y) ∧
    (updateFeatureWorktree "f1" none none
        ((updateFeatureWorktree "f1" (some "/wt") (some "br")
            ⟨FileContent.features [mkFeature "f1" "backlog"], FileContent.missing⟩ 0).1)
        0).1.featuresFile
      = FileContent.features [mkFeature "f1" "backlog"] := by
  refine ⟨?_, ?_, ?_, ?_, by decide⟩
  · intro wp bn f
    by_cases h : truthyOpt wp = true
    · right
      cases bn with
      | some t => simp [setWorktreeFields, h]
      | none => simp [setWorktreeFields, h]
    · left
      simp [setWorktreeFields, h]
  · intro s bn f hs
    have h : truthyOpt (some s) = true := by
      simp [truthyOpt, hs]
    cases bn with
    | some t => simp [setWorktreeFields, h]
    | none => simp [setWorktreeFields, h]
  · intro bn f
    constructor
    · simp [setWorktreeFields, truthyOpt]
    · simp [setWorktreeFields, truthyOpt]
  · intro fid wp bn st now fs hfile hok x hx
    cases hfind : (loadFeatures st.featuresFile now).find? (fun f => f.id == some fid) with
    | none =>
      rcases @updateFW_of_find_none fid wp bn st now hfind with hcase | hcase <;>
        (rw [hcase] at hok; simp at hok)
    | some g =>
      rw [updateFW_of_find_some hfind] at hfile
      have hfs : fs = patchFirst (fun f => f.id == some fid) (setWorktreeFields wp bn)
          (loadFeatures st.featuresFile now) := (FileContent.features.inj hfile).symm
      rw [hfs] at hx
      exact patchFirst_mem hx

/-- Witness for C7: a truthy set on a concrete record. -/
theorem C7_worktree_fields_together_witness :
    (setWorktreeFields (some "/wt") (some "br") (mkFeature "f1" "backlog")).worktreePath
        = JField.str "/wt" ∧
      (setWorktreeFields (some "/wt") (some "br") (mkFeature "f1" "backlog")).branchName
        ≠ JField.absent :=
  C7_worktree_fields_together.2.1 "/wt" (some "br") (mkFeature "f1" "backlog") (by decide)

/-- C8 counterexample: with both arguments provided as empty strings,
the update does not set them — the summary keeps its old value and the
previously-set error is deleted rather than set, because the source
tests JS truthiness (`if (summary)`, `if (error)`), not providedness. -/
theorem C8_counterexample :
    (updateFeatureStatus "f1" "done" (some "") (some "")
        ⟨FileContent.features [fErrSum], FileContent.missing⟩ 0).1.featuresFile
      = FileContent.features [{ mkFeature "f1" "done" with summary := some "old-summary" }] ∧
    ({ mkFeature "f1" "done" with summary := some "old-summary" } : Feature).error = none ∧
    ({ mkFeature "f1" "done" with summary := some "old-summary" } : Feature).summary
      ≠ some "" := by
  refine ⟨by decide, rfl, by decide⟩

/-- C8 (amended): updating an existing id rewrites exactly that record:
status is applied; summary is set only when a non-empty summary is
provided, else kept; error is set only when a non-empty error is
provided, else deleted; every other field of the record and every other
record are unchanged, in order.  Together with the load identity on
truthy-id collections, a follow-up load returns exactly the written
records. -/
theorem C8_update_patch_semantics :
    (∀ (fid s : String) (sum err : Option String) (st : DiskState) (now : Nat)
        (l1 l2 : List Feature) (g : Feature),
      loadFeatures st.featuresFile now = l1 ++ g :: l2 →
      g.id = some fid →
      (∀ x ∈ l1, x.id ≠ some fid) →
      updateFeatureStatus fid s sum err st now
        = (⟨FileContent.features (l1 ++ applyPatch s sum err g :: l2), backupAfterCopy st⟩,
           UpdateResult.ok)) ∧
    (∀ (s : String) (sum err : Option String) (g : Feature),
      applyPatch s sum err g
        = { g with status := some s,
                   summary := if truthyOpt sum = true then sum else g.summary,
                   error := if truthyOpt err = true then err else none }) ∧
    (∀ (fs : List Feature) (now : Nat),
      (∀ f ∈ fs, truthyOpt f.id = true) → loadFeatures (FileContent.features fs) now = fs) := by
  refine ⟨?_, ?_, fun fs now h => loadFeatures_of_truthy h now⟩
  · intro fid s sum err st now l1 l2 g hload hgid hl1
    have hne : loadFeatures st.featuresFile now ≠ [] := by
      rw [hload]
      simp
    have hws : workingSet st now = l1 ++ g :: l2 := by
      rw [workingSet_of_ne_nil hne, hload]
    have hp1 : ∀ x ∈ l1, (fun f => f.id == some fid) x = false := by
      intro x hx
      simpa using hl1 x hx
    have hpg : (fun f => f.id == some fid) g = true := by
      simpa using hgid
    have hfind : (workingSet st now).find? (fun f => f.id == some fid) = some g := by
      rw [hws]
      exact find?_append_cons _ l1 l2 g hp1 hpg
    have hres := @updateFS_of_find_some fid s sum err st now g hfind
    rw [hws, patchFirst_append_cons _ _ l1 l2 g hp1 hpg] at hres
    exact hres
  · intro s sum err g
    unfold applyPatch
    by_cases h1 : truthyOpt sum = true <;> by_cases h2 : truthyOpt err = true <;>
      simp [h1, h2]

/-- Witness for C8: a truthy summary on a record with a stale error —
the summary is applied and the stale error deleted. -/
theorem C8_update_patch_semantics_witness :
    updateFeatureStatus "f1" "done" (some "did it") none
        ⟨FileContent.features [fErrSum], FileContent.missing⟩ 0
      = (⟨FileContent.features
            [{ mkFeature "f1" "done" with summary := some "did it" }],
          FileContent.features [fErrSum]⟩, UpdateResult.ok) := by
  have h := C8_update_patch_semantics.1 "f1" "done" (some "did it") none
    ⟨FileContent.features [fErrSum], FileContent.missing⟩ 0 [] [] fErrSum
    (by decide) (by decide) (by simp)
  simpa using h
